import Mathlib

/-!
Shallow embedding of the µOS++ `utils-lists` intrusive doubly-linked-list
library (`src/src/lists.cpp`, `src/include/micro-os-plus/utils/inlines.h`,
`src/include/micro-os-plus/utils/lists.h`).

Link nodes are identified by their address, modelled as a `Nat`. The heap
maps every address to the pair of raw `previous`/`next` pointers stored in
the node; `none` models `nullptr`. Operations that dereference a possibly
null pointer or that have `assert` preconditions return `Option Heap`,
with `none` modelling an assertion failure or undefined behaviour; the
pointer writes are performed in exactly the source order.

The repository contains two generations of the list engine:
- `lists.cpp` + `inlines.h`: `double_list_links_base` and the
  `double_list` / `intrusive_list` templates defined in `inlines.h`;
- `lists.h`: an older self-contained variant (`static_double_list_links`,
  `double_list<HeadT, ElementT>` with `link`/`insert_after`).
Both are embedded below; definitions for the older variant carry an
`old_` prefix or are named after their `lists.h` symbol.
-/

namespace UtilsLists

/-- One link node: the `previous_`/`next_` raw pointers of
`double_list_links_base` (`lists.h` declares the same pair in
`static_double_list_links`). `none` models `nullptr`. -/
structure Links where
  previous : Option Nat
  next : Option Nat
deriving DecidableEq, Repr

/-- The heap: the contents of every link node, addressed by `Nat`. -/
def Heap := Nat → Links

/-- Write the record `l` at address `a`. -/
def store (h : Heap) (a : Nat) (l : Links) : Heap :=
  fun x => if x = a then l else h x

/-- The self-referencing record of an unlinked node. -/
def selfRef (a : Nat) : Links := ⟨some a, some a⟩

/-- Embeds `double_list_links_base::initialize` (inlines.h:78): set both pointers
to the node itself. -/
def initialise (h : Heap) (self : Nat) : Heap :=
  store h self (selfRef self)

/-- Embeds `double_list_links_base::uninitialized` (lists.cpp:45): true iff a
pointer is null (the source then asserts both are null). -/
def uninitialised (h : Heap) (self : Nat) : Bool :=
  (h self).previous = none || (h self).next = none

/-- Embeds `double_list_links_base::initialize_once` (lists.cpp:72). -/
def initialise_once (h : Heap) (self : Nat) : Heap :=
  if uninitialised h self then initialise h self else h

/-- Embeds `double_list_links_base::linked` (lists.cpp:160): false iff a pointer
refers to the node itself (the source then asserts both do). -/
def linked (h : Heap) (self : Nat) : Bool :=
  !((h self).next = some self || (h self).previous = some self)

/-- The two assertions at the head of `double_list_links_base::link_next`
(lists.cpp:94): `next_ != nullptr` and `next_->previous_ != nullptr`.
`link_previous` (lists.cpp:118) asserts the same two conditions. -/
def link_next_ok (h : Heap) (self : Nat) : Bool :=
  match (h self).next with
  | none => false
  | some nx => (h nx).previous ≠ none

/-- Embeds `double_list_links_base::link_next` (lists.cpp:88): insert `node`
after `self`; four pointer writes in source order. -/
def link_next (h : Heap) (self node : Nat) : Option Heap :=
  if link_next_ok h self then
    let h1 := store h node { h node with previous := some self }
    let h2 := store h1 node { h1 node with next := (h1 self).next }
    match (h2 self).next with
    | none => none
    | some nx =>
      let h3 := store h2 nx { h2 nx with previous := some node }
      some (store h3 self { h3 self with next := some node })
  else none

/-- Embeds `double_list_links_base::link_previous` (lists.cpp:112): insert `node`
before `self`; four pointer writes in source order (the asserted
precondition is about `next_`, as in the source). -/
def link_previous (h : Heap) (self node : Nat) : Option Heap :=
  if link_next_ok h self then
    let h1 := store h node { h node with next := some self }
    let h2 := store h1 node { h1 node with previous := (h1 self).previous }
    match (h2 self).previous with
    | none => none
    | some pv =>
      let h3 := store h2 pv { h2 pv with next := some node }
      some (store h3 self { h3 self with previous := some node })
  else none

/-- Embeds `double_list_links_base::unlink` (lists.cpp:137): make the neighbours
point to each other, then reset the node to the self-referencing state.
There is no assertion; `none` only models a null-pointer dereference. -/
def unlink (h : Heap) (self : Nat) : Option Heap :=
  match (h self).previous with
  | none => none
  | some p =>
    let h1 := store h p { h p with next := (h self).next }
    match (h1 self).next with
    | none => none
    | some n =>
      let h2 := store h1 n { h1 n with previous := (h1 self).previous }
      some (initialise h2 self)

/-! ## The `double_list<T, L>` template of inlines.h

A list is its sentinel links node `links_`, identified by its address `s`
in the heap. -/

/-- Embeds `double_list<T, L>::head` (inlines.h:374): the sentinel's `next`. -/
def list_head (h : Heap) (s : Nat) : Option Nat :=
  (h s).next

/-- Embeds `double_list<T, L>::tail` (inlines.h:381): the sentinel's `previous`. -/
def list_tail (h : Heap) (s : Nat) : Option Nat :=
  (h s).previous

/-- Embeds `double_list<T, L>::empty` (inlines.h:351). -/
def list_empty (h : Heap) (s : Nat) : Bool :=
  !(linked h s)

/-- Embeds `double_list<T, L>::clear` (inlines.h:363): `links_.initialize ()`. -/
def list_clear (h : Heap) (s : Nat) : Heap :=
  initialise h s

/-- The `double_list<T, L>` constructor (inlines.h:261) for a regular
(eagerly initialised) list: it calls `clear ()`. -/
def list_construct (h : Heap) (s : Nat) : Heap :=
  list_clear h s

/-- Embeds `double_list<T, L>::link_tail` (inlines.h:387) for a regular list:
`tail ()->link_next (&node)`; `none` models a null `tail ()`. -/
def link_tail (h : Heap) (s node : Nat) : Option Heap :=
  match list_tail h s with
  | none => none
  | some t => link_next h t node

/-- Embeds `double_list<T, L>::link_head` (inlines.h:400) for a regular list:
`head ()->link_previous (&node)`. -/
def link_head (h : Heap) (s node : Nat) : Option Heap :=
  match list_head h s with
  | none => none
  | some hd => link_previous h hd node

/-- Embeds `double_list<T, L>::link_tail` (inlines.h:387) for a statically
allocated list: `assert (!links_.uninitialized ())` first, with no lazy
bootstrap. -/
def link_tail_static (h : Heap) (s node : Nat) : Option Heap :=
  if uninitialised h s then none else link_tail h s node

/-- Embeds `double_list<T, L>::link_head` (inlines.h:400) for a statically
allocated list: `assert (!links_.uninitialized ())` first, with no lazy
bootstrap. -/
def link_head_static (h : Heap) (s node : Nat) : Option Heap :=
  if uninitialised h s then none else link_head h s node

/-- Embeds `double_list<T, L>::begin` (inlines.h:413) for a regular list: an
iterator at `links_.next ()`. -/
def list_begin (h : Heap) (s : Nat) : Option Nat :=
  (h s).next

/-- Embeds `double_list<T, L>::begin` (inlines.h:413) for a statically allocated
list: `assert (!links_.uninitialized ())` first. -/
def begin_static (h : Heap) (s : Nat) : Option (Option Nat) :=
  if uninitialised h s then none else some (list_begin h s)

/-- Embeds `double_list<T, L>::end` (inlines.h:425): an iterator at the sentinel
address itself. -/
def list_end (s : Nat) : Nat :=
  s

/-- Forward iteration from an iterator position until the sentinel `s` is
reached, collecting the visited node addresses (fuel-bounded; the
iterator's `operator++` follows `next ()`). -/
def visit (h : Heap) (s : Nat) : Option Nat → Nat → List Nat
  | _, 0 => []
  | none, _ + 1 => []
  | some c, fuel + 1 => if c = s then [] else c :: visit h s (h c).next fuel

/-- The sequence of nodes visited iterating from `begin ()` to `end ()`. -/
def toList (h : Heap) (s : Nat) (fuel : Nat) : List Nat :=
  visit h s (list_begin h s) fuel

/-! ## The `intrusive_list` template of inlines.h

Host objects embed their link node at a fixed byte offset `off`: the link
node at address `n` belongs to the host object at address `n - off`
(`get_pointer`, inlines.h:653). -/

/-- Embeds `intrusive_list::get_pointer` (inlines.h:653): recover the host
object's address from the embedded link node's address. -/
def get_pointer (off n : Nat) : Nat :=
  n - off

/-- Embeds `intrusive_list::unlink_head` (inlines.h:671): no assertion (the
source comments that empty-list unlinks are treated as nops); unlink
`links_.next ()` and translate it to the host address. -/
def unlink_head_i (off : Nat) (h : Heap) (s : Nat) : Option (Heap × Nat) :=
  match (h s).next with
  | none => none
  | some it =>
    match unlink h it with
    | none => none
    | some h' => some (h', get_pointer off it)

/-- Embeds `intrusive_list::unlink_tail` (inlines.h:685): symmetric, from
`links_.previous ()`; again no assertion. -/
def unlink_tail_i (off : Nat) (h : Heap) (s : Nat) : Option (Heap × Nat) :=
  match (h s).previous with
  | none => none
  | some it =>
    match unlink h it with
    | none => none
    | some h' => some (h', get_pointer off it)

/-! ## The older `lists.h` variant

`lists.h` declares `static_double_list_links` (clear-to-null unlinked
state) and a `double_list<HeadT, ElementT>` whose `link`/`begin` perform
the lazy bootstrap. Its `static_double_list_links::unlink` body is not
present under `src/` (only the declaration, lists.h:146); the `unlink`
definition above, from `lists.cpp`, is the only unlink implementation in
the sources and is used for it below. -/

/-- Embeds `double_list<HeadT, ElementT>::uninitialized` (lists.h:1112): a
pointer of the head node is null. -/
def old_uninitialised (h : Heap) (s : Nat) : Bool :=
  (h s).previous = none || (h s).next = none

/-- Embeds `double_list<HeadT, ElementT>::empty` (lists.h:1120), eagerly
allocated head: `head_.next () == &head_`. -/
def old_empty (h : Heap) (s : Nat) : Bool :=
  (h s).next = some s

/-- Embeds `double_list<HeadT, ElementT>::empty` (lists.h:1120), statically
allocated head: also empty while uninitialised. -/
def old_empty_static (h : Heap) (s : Nat) : Bool :=
  (h s).next = some s || old_uninitialised h s

/-- Embeds `double_list<HeadT, ElementT>::clear` (lists.h:1139): point the head
node to itself, `next` first. -/
def old_clear (h : Heap) (s : Nat) : Heap :=
  let h1 := store h s { h s with next := some s }
  store h1 s { h1 s with previous := some s }

/-- Embeds `double_list<HeadT, ElementT>::insert_after` (lists.h:1181): asserts
that the node's pointers are both null and that `after->next ()` is not
null, then performs the four pointer writes in source order. -/
def insert_after (h : Heap) (node after : Nat) : Option Heap :=
  if (h node).previous = none ∧ (h node).next = none ∧ (h after).next ≠ none then
    let h1 := store h node { h node with previous := some after }
    let h2 := store h1 node { h1 node with next := (h1 after).next }
    match (h2 after).next with
    | none => none
    | some nx =>
      let h3 := store h2 nx { h2 nx with previous := some node }
      some (store h3 after { h3 after with next := some node })
  else none

/-- Embeds `double_list<HeadT, ElementT>::link` (lists.h:1164), statically
allocated head: if uninitialised, `clear ()` first (lazy bootstrap), then
`insert_after (node, tail ())`. -/
def old_link (h : Heap) (s node : Nat) : Option Heap :=
  let h0 := if old_uninitialised h s then old_clear h s else h
  match (h0 s).previous with
  | none => none
  | some t => insert_after h0 node t

/-- Embeds `double_list<HeadT, ElementT>::begin` (lists.h:1208), statically
allocated head: if uninitialised, `clear ()` first (lazy bootstrap), then
an iterator at `head_.next ()`; a mutating read, so the possibly updated
heap is returned alongside the iterator. -/
def old_begin (h : Heap) (s : Nat) : Heap × Option Nat :=
  let h0 := if old_uninitialised h s then old_clear h s else h
  (h0, (h0 s).next)

/-- Embeds `intrusive_list::unlink_head` (lists.h:1453, eagerly allocated head):
`assert (!empty ())`, then unlink `head_.next ()` and translate it to the
host address. -/
def old_unlink_head (off : Nat) (h : Heap) (s : Nat) : Option (Heap × Nat) :=
  if old_empty h s then none
  else
    match (h s).next with
    | none => none
    | some it =>
      match unlink h it with
      | none => none
      | some h' => some (h', get_pointer off it)

/-- Embeds `intrusive_list::unlink_tail` (lists.h:1467, eagerly allocated head):
`assert (!empty ())`, then unlink `head_.previous ()`. -/
def old_unlink_tail (off : Nat) (h : Heap) (s : Nat) : Option (Heap × Nat) :=
  if old_empty h s then none
  else
    match (h s).previous with
    | none => none
    | some it =>
      match unlink h it with
      | none => none
      | some h' => some (h', get_pointer off it)

/-! ## Concrete heaps used to instantiate the theorems -/

/-- A heap in which every node is unlinked (self-referencing). -/
def heapFree : Heap := fun x => selfRef x

/-- A zero-filled heap: every node has null pointers, as in the BSS
segment before any constructor runs. -/
def heapNull : Heap := fun _ => ⟨none, none⟩

/-- A two-node cycle `0 ↔ 1`; every other node is unlinked. -/
def heapPair : Heap := fun x =>
  if x = 0 then ⟨some 1, some 1⟩
  else if x = 1 then ⟨some 0, some 0⟩
  else selfRef x

/-- The circular list `0 → 1 → 2 → 3 → 0` (sentinel `0`, elements
`[1, 2, 3]`); every other node is unlinked. -/
def heap3 : Heap := fun x =>
  if x = 0 then ⟨some 3, some 1⟩
  else if x = 1 then ⟨some 0, some 2⟩
  else if x = 2 then ⟨some 1, some 3⟩
  else if x = 3 then ⟨some 2, some 0⟩
  else selfRef x

/-- Splice `node` between the adjacent nodes `a` and `b`. -/
def insertBetween (h : Heap) (a b node : Nat) : Heap :=
  let h1 := store h node ⟨some a, some b⟩
  let h2 := store h1 b { h1 b with previous := some node }
  store h2 a { h2 a with next := some node }

/-- The structural invariant of the circular design over a set `S` of
node addresses: every node's pointers are non-null, point into `S`, and
adjacent nodes point back at each other (`previous.next == self` and
`next.previous == self`); a node satisfying it with both pointers equal
to itself is exactly the empty/unlinked state. -/
def Inv (h : Heap) (S : Set Nat) : Prop :=
  ∀ x ∈ S, (∃ p ∈ S, (h x).previous = some p ∧ (h p).next = some x)
         ∧ (∃ n ∈ S, (h x).next = some n ∧ (h n).previous = some x)


/-! ## Normal forms for the pointer surgery

Both `link_next self node` and `link_previous self node` splice `node`
between a pair of adjacent nodes `a`, `b` (`a = self, b = self->next_`
and `a = self->previous_, b = self` respectively); `insertBetween` is the
common normal form, used to state the pointwise effect once. -/

theorem store_same (h : Heap) (a : Nat) (l : Links) : store h a l a = l := by
  simp [store]

theorem store_other (h : Heap) (a : Nat) (l : Links) {b : Nat} (hne : b ≠ a) :
    store h a l b = h b := by
  simp [store, hne]

theorem visit_stop (h : Heap) (s : Nat) (fuel : Nat) :
    visit h s (some s) fuel = [] := by
  cases fuel <;> simp [visit]

theorem visit_step (h : Heap) (s c : Nat) (fuel : Nat) (hcs : c ≠ s) :
    visit h s (some c) (fuel + 1) = c :: visit h s (h c).next fuel := by
  simp [visit, hcs]

theorem insertBetween_apply (h : Heap) (a b node x : Nat) (hab : a ≠ b)
    (hna : node ≠ a) (hnb : node ≠ b) :
    insertBetween h a b node x =
      if x = node then ⟨some a, some b⟩
      else if x = a then { h a with next := some node }
      else if x = b then { h b with previous := some node }
      else h x := by
  simp only [insertBetween, store]
  split_ifs <;> simp_all

theorem insertBetween_apply_self (h : Heap) (a node x : Nat)
    (hna : node ≠ a) :
    insertBetween h a a node x =
      if x = node then ⟨some a, some a⟩
      else if x = a then ⟨some node, some node⟩
      else h x := by
  simp only [insertBetween, store]
  split_ifs <;> simp_all

theorem link_next_eq (h : Heap) (self node nx : Nat)
    (hnx : (h self).next = some nx) (hok : (h nx).previous ≠ none)
    (hns : node ≠ self) (hnn : node ≠ nx) :
    link_next h self node = some (insertBetween h self nx node) := by
  have hsn : self ≠ node := Ne.symm hns
  have hxn : nx ≠ node := Ne.symm hnn
  have hok' : link_next_ok h self = true := by
    simp only [link_next_ok, hnx, ne_eq, decide_eq_true_eq]
    exact hok
  simp only [link_next, hok', if_true, store_other _ _ _ hsn, hnx]
  congr 1
  funext x
  simp only [insertBetween, store]
  split_ifs <;> simp_all

theorem link_previous_eq (h : Heap) (self node pv nx : Nat)
    (hpv : (h self).previous = some pv)
    (hnx : (h self).next = some nx) (hok : (h nx).previous ≠ none)
    (hns : node ≠ self) (hnp : node ≠ pv) :
    link_previous h self node = some (insertBetween h pv self node) := by
  have hsn : self ≠ node := Ne.symm hns
  have hpn : pv ≠ node := Ne.symm hnp
  have hok' : link_next_ok h self = true := by
    simp only [link_next_ok, hnx, ne_eq, decide_eq_true_eq]
    exact hok
  simp only [link_previous, hok', if_true, store_other _ _ _ hsn, hpv]
  congr 1
  funext x
  by_cases hps : pv = self
  · subst hps
    simp only [insertBetween, store]
    split_ifs <;> simp_all
  · simp only [insertBetween, store]
    split_ifs <;> simp_all

theorem unlink_apply (h : Heap) (x p n : Nat) (hp : (h x).previous = some p)
    (hn : (h x).next = some n) (hpx : p ≠ x) (hnx : n ≠ x) (hpn : p ≠ n) :
    unlink h x = some (fun y =>
      if y = x then selfRef x
      else if y = p then { h p with next := some n }
      else if y = n then { h n with previous := some p }
      else h y) := by
  have hxp : x ≠ p := Ne.symm hpx
  simp only [unlink, hp, hn, store_other _ _ _ hxp, initialise]
  congr 1
  funext y
  simp only [store, selfRef]
  split_ifs <;> simp_all

theorem unlink_apply_pair (h : Heap) (x p : Nat) (hp : (h x).previous = some p)
    (hn : (h x).next = some p) (hpx : p ≠ x) :
    unlink h x = some (fun y =>
      if y = x then selfRef x else if y = p then selfRef p else h y) := by
  have hxp : x ≠ p := Ne.symm hpx
  simp only [unlink, hp, hn, store_other _ _ _ hxp, initialise]
  congr 1
  funext y
  simp only [store, selfRef]
  split_ifs <;> simp_all

/-- Unlinking a node that is already in the self-referencing unlinked
state changes nothing. -/
theorem unlink_unlinked (h : Heap) (x : Nat) (hx : h x = selfRef x) :
    unlink h x = some h := by
  simp only [unlink, hx, selfRef, store_same, initialise]
  congr 1
  funext y
  simp only [store]
  split_ifs <;> simp_all [selfRef]

/-! ## The structural invariant -/

theorem initialise_inv (h : Heap) (S : Set Nat) (a : Nat)
    (hIv : Inv h S) (ha : a ∉ S) :
    Inv (initialise h a) (insert a S) := by
  intro y hy
  rcases Set.mem_insert_iff.mp hy with rfl | hyS
  · refine ⟨⟨y, Set.mem_insert y S, ?_, ?_⟩,
           ⟨y, Set.mem_insert y S, ?_, ?_⟩⟩ <;>
      simp [initialise, store_same, selfRef]
  · have hya : y ≠ a := fun e => ha (e ▸ hyS)
    obtain ⟨⟨p, hpS, hp1, hp2⟩, ⟨n, hnS, hn1, hn2⟩⟩ := hIv y hyS
    have hpa : p ≠ a := fun e => ha (e ▸ hpS)
    have hna : n ≠ a := fun e => ha (e ▸ hnS)
    refine ⟨⟨p, Set.mem_insert_of_mem _ hpS, ?_, ?_⟩,
            ⟨n, Set.mem_insert_of_mem _ hnS, ?_, ?_⟩⟩ <;>
      simp [initialise, store_other _ _ _ hya, store_other _ _ _ hpa,
            store_other _ _ _ hna, hp1, hp2, hn1, hn2]

theorem insertBetween_inv (h : Heap) (S : Set Nat) (a b node : Nat)
    (hIv : Inv h S) (haS : a ∈ S) (hab : (h a).next = some b)
    (hnode : node ∉ S) :
    Inv (insertBetween h a b node) (insert node S) := by
  obtain ⟨⟨p0, hp0S, hp01, hp02⟩, ⟨b', hbS', hb1, hb2'⟩⟩ := hIv a haS
  have hbb : b' = b := by
    rw [hab] at hb1
    exact (Option.some.inj hb1).symm
  have hbS : b ∈ S := hbb ▸ hbS'
  have hb2 : (h b).previous = some a := hbb ▸ hb2'
  have hna : node ≠ a := fun e => hnode (e ▸ haS)
  have hnb : node ≠ b := fun e => hnode (e ▸ hbS)
  have han : a ≠ node := Ne.symm hna
  have hbn : b ≠ node := Ne.symm hnb
  by_cases habe : a = b
  · subst habe
    have key : ∀ x, insertBetween h a a node x =
        if x = node then ⟨some a, some a⟩
        else if x = a then ⟨some node, some node⟩
        else h x := fun x => insertBetween_apply_self h a node x hna
    intro y hy
    rcases Set.mem_insert_iff.mp hy with rfl | hyS
    · refine ⟨⟨a, Set.mem_insert_of_mem _ haS, ?_, ?_⟩,
              ⟨a, Set.mem_insert_of_mem _ haS, ?_, ?_⟩⟩ <;>
        simp [key, han]
    · have hyn : y ≠ node := fun e => hnode (e ▸ hyS)
      by_cases hya : y = a
      · subst hya
        refine ⟨⟨node, Set.mem_insert node S, ?_, ?_⟩,
                ⟨node, Set.mem_insert node S, ?_, ?_⟩⟩ <;>
          simp [key, han]
      · obtain ⟨⟨p, hpS, hp1, hp2⟩, ⟨n, hnS, hn1, hn2⟩⟩ := hIv y hyS
        have hpn : p ≠ node := fun e => hnode (e ▸ hpS)
        have hnn : n ≠ node := fun e => hnode (e ▸ hnS)
        have hpa : p ≠ a := by
          rintro rfl
          rw [hab] at hp2
          exact hya (Option.some.inj hp2).symm
        have hna2 : n ≠ a := by
          rintro rfl
          rw [hb2] at hn2
          exact hya (Option.some.inj hn2).symm
        refine ⟨⟨p, Set.mem_insert_of_mem _ hpS, ?_, ?_⟩,
                ⟨n, Set.mem_insert_of_mem _ hnS, ?_, ?_⟩⟩ <;>
          simp [key, hyn, hya, hpn, hpa, hnn, hna2, hp1, hp2, hn1, hn2]
  · have key : ∀ x, insertBetween h a b node x =
        if x = node then ⟨some a, some b⟩
        else if x = a then { h a with next := some node }
        else if x = b then { h b with previous := some node }
        else h x := fun x => insertBetween_apply h a b node x habe hna hnb
    have hba : b ≠ a := Ne.symm habe
    intro y hy
    rcases Set.mem_insert_iff.mp hy with rfl | hyS
    · refine ⟨⟨a, Set.mem_insert_of_mem _ haS, ?_, ?_⟩,
              ⟨b, Set.mem_insert_of_mem _ hbS, ?_, ?_⟩⟩ <;>
        simp [key, han, hbn, hba]
    · have hyn : y ≠ node := fun e => hnode (e ▸ hyS)
      by_cases hya : y = a
      · subst hya
        obtain ⟨⟨p, hpS, hp1, hp2⟩, -⟩ := hIv y hyS
        have hpn : p ≠ node := fun e => hnode (e ▸ hpS)
        have hpy : p ≠ y := by
          rintro rfl
          rw [hab] at hp2
          exact habe (Option.some.inj hp2).symm
        refine ⟨⟨p, Set.mem_insert_of_mem _ hpS, ?_, ?_⟩,
                ⟨node, Set.mem_insert node S, ?_, ?_⟩⟩
        · simp [key, hyn, hp1]
        · by_cases hpb : p = b
          · subst hpb
            simp [key, hbn, hba, hp2]
          · simp [key, hpn, hpy, hpb, hp2]
        · simp [key, hyn]
        · simp [key, han]
      · by_cases hyb : y = b
        · subst hyb
          obtain ⟨-, ⟨n, hnS, hn1, hn2⟩⟩ := hIv y hyS
          have hnn : n ≠ node := fun e => hnode (e ▸ hnS)
          have hny : n ≠ y := by
            rintro rfl
            rw [hb2] at hn2
            exact hya (Option.some.inj hn2).symm
          refine ⟨⟨node, Set.mem_insert node S, ?_, ?_⟩,
                  ⟨n, Set.mem_insert_of_mem _ hnS, ?_, ?_⟩⟩
          · simp [key, hyn, hya]
          · simp [key, hbn]
          · simp [key, hyn, hya, hn1]
          · by_cases hna2 : n = a
            · subst hna2
              simp [key, han, hn2]
            · simp [key, hnn, hna2, hny, hn2]
        · obtain ⟨⟨p, hpS, hp1, hp2⟩, ⟨n, hnS, hn1, hn2⟩⟩ := hIv y hyS
          have hpn : p ≠ node := fun e => hnode (e ▸ hpS)
          have hnn : n ≠ node := fun e => hnode (e ▸ hnS)
          have hpa : p ≠ a := by
            rintro rfl
            rw [hab] at hp2
            exact hyb (Option.some.inj hp2).symm
          have hnb2 : n ≠ b := by
            rintro rfl
            rw [hb2] at hn2
            exact hya (Option.some.inj hn2).symm
          refine ⟨⟨p, Set.mem_insert_of_mem _ hpS, ?_, ?_⟩,
                  ⟨n, Set.mem_insert_of_mem _ hnS, ?_, ?_⟩⟩
          · simp [key, hyn, hya, hyb, hp1]
          · by_cases hpb : p = b
            · subst hpb
              simp [key, hbn, hba, hp2]
            · simp [key, hpn, hpa, hpb, hp2]
          · simp [key, hyn, hya, hyb, hn1]
          · by_cases hna2 : n = a
            · subst hna2
              simp [key, han, hn2]
            · simp [key, hnn, hna2, hnb2, hn2]

theorem unlink_inv (h : Heap) (S : Set Nat) (x : Nat)
    (hIv : Inv h S) (hxS : x ∈ S) :
    ∃ h', unlink h x = some h' ∧ Inv h' (S \ {x}) ∧ h' x = selfRef x := by
  obtain ⟨⟨p, hpS, hp1, hp2⟩, ⟨n, hnS, hn1, hn2⟩⟩ := hIv x hxS
  by_cases hpx : p = x
  · rw [hpx] at hp1 hp2
    have hx : h x = selfRef x := by
      conv_lhs => rw [show h x = (⟨(h x).previous, (h x).next⟩ : Links) from rfl]
      rw [hp1, hp2]
      rfl
    refine ⟨h, unlink_unlinked h x hx, ?_, hx⟩
    intro y hy
    obtain ⟨hyS, hyx⟩ := Set.mem_diff_singleton.mp hy
    obtain ⟨⟨q, hqS, hq1, hq2⟩, ⟨m, hmS, hm1, hm2⟩⟩ := hIv y hyS
    have hqx : q ≠ x := by
      intro e
      rw [e, hp2] at hq2
      exact hyx (Option.some.inj hq2).symm
    have hmx : m ≠ x := by
      intro e
      rw [e, hp1] at hm2
      exact hyx (Option.some.inj hm2).symm
    exact ⟨⟨q, Set.mem_diff_singleton.mpr ⟨hqS, hqx⟩, hq1, hq2⟩,
           ⟨m, Set.mem_diff_singleton.mpr ⟨hmS, hmx⟩, hm1, hm2⟩⟩
  · have hnx : n ≠ x := by
      intro e
      rw [e, hp1] at hn2
      exact hpx (Option.some.inj hn2)
    by_cases hpn : p = n
    · subst hpn
      refine ⟨_, unlink_apply_pair h x p hp1 hn1 hpx, ?_, by simp [Ne.symm hpx]⟩
      intro y hy
      obtain ⟨hyS, hyx⟩ := Set.mem_diff_singleton.mp hy
      by_cases hyp : y = p
      · subst hyp
        refine ⟨⟨y, Set.mem_diff_singleton.mpr ⟨hyS, hyx⟩, ?_, ?_⟩,
                ⟨y, Set.mem_diff_singleton.mpr ⟨hyS, hyx⟩, ?_, ?_⟩⟩ <;>
          simp [hyx, selfRef]
      · obtain ⟨⟨q, hqS, hq1, hq2⟩, ⟨m, hmS, hm1, hm2⟩⟩ := hIv y hyS
        have hqx : q ≠ x := by
          intro e
          rw [e, hn1] at hq2
          exact hyp (Option.some.inj hq2).symm
        have hqp : q ≠ p := by
          intro e
          rw [e, hp2] at hq2
          exact hyx (Option.some.inj hq2).symm
        have hmx : m ≠ x := by
          intro e
          rw [e, hp1] at hm2
          exact hyp (Option.some.inj hm2).symm
        have hmp : m ≠ p := by
          intro e
          rw [e, hn2] at hm2
          exact hyx (Option.some.inj hm2).symm
        refine ⟨⟨q, Set.mem_diff_singleton.mpr ⟨hqS, hqx⟩, ?_, ?_⟩,
                ⟨m, Set.mem_diff_singleton.mpr ⟨hmS, hmx⟩, ?_, ?_⟩⟩
        · simp [hyx, hyp, hq1]
        · simp [hqx, hqp, hq2]
        · simp [hyx, hyp, hm1]
        · simp [hmx, hmp, hm2]
    · refine ⟨_, unlink_apply h x p n hp1 hn1 hpx hnx hpn, ?_, by simp [Ne.symm hpx]⟩
      have hnp : n ≠ p := Ne.symm hpn
      intro y hy
      obtain ⟨hyS, hyx⟩ := Set.mem_diff_singleton.mp hy
      by_cases hyp : y = p
      · subst hyp
        obtain ⟨⟨q, hqS, hq1, hq2⟩, -⟩ := hIv y hyS
        have hqx : q ≠ x := by
          intro e
          rw [e, hn1] at hq2
          exact hpn (Option.some.inj hq2).symm
        have hqy : q ≠ y := by
          intro e
          rw [e, hp2] at hq2
          exact hyx (Option.some.inj hq2).symm
        refine ⟨⟨q, Set.mem_diff_singleton.mpr ⟨hqS, hqx⟩, ?_, ?_⟩,
                ⟨n, Set.mem_diff_singleton.mpr ⟨hnS, hnx⟩, ?_, ?_⟩⟩
        · simp [hyx, hq1]
        · by_cases hqn : q = n
          · subst hqn
            simp [hqx, hqy, hq2]
          · simp [hqx, hqy, hqn, hq2]
        · simp [hyx]
        · simp [hnx, Ne.symm hpn]
      · by_cases hyn : y = n
        · subst hyn
          obtain ⟨-, ⟨m, hmS, hm1, hm2⟩⟩ := hIv y hyS
          have hmx : m ≠ x := by
            intro e
            rw [e, hp1] at hm2
            exact hpn (Option.some.inj hm2)
          have hmy : m ≠ y := by
            intro e
            rw [e, hn2] at hm2
            exact hyx (Option.some.inj hm2).symm
          refine ⟨⟨p, Set.mem_diff_singleton.mpr ⟨hpS, hpx⟩, ?_, ?_⟩,
                  ⟨m, Set.mem_diff_singleton.mpr ⟨hmS, hmx⟩, ?_, ?_⟩⟩
          · simp [hyx, hnp]
          · simp [hpx]
          · simp [hyx, hnp, hm1]
          · by_cases hmp : m = p
            · subst hmp
              simp [hmx, hm2]
            · simp [hmx, hmy, hmp, hm2]
        · obtain ⟨⟨q, hqS, hq1, hq2⟩, ⟨m, hmS, hm1, hm2⟩⟩ := hIv y hyS
          have hqx : q ≠ x := by
            intro e
            rw [e, hn1] at hq2
            exact hyn (Option.some.inj hq2).symm
          have hqp : q ≠ p := by
            intro e
            rw [e, hp2] at hq2
            exact hyx (Option.some.inj hq2).symm
          have hmx : m ≠ x := by
            intro e
            rw [e, hp1] at hm2
            exact hyp (Option.some.inj hm2).symm
          have hmn : m ≠ n := by
            intro e
            rw [e, hn2] at hm2
            exact hyx (Option.some.inj hm2).symm
          refine ⟨⟨q, Set.mem_diff_singleton.mpr ⟨hqS, hqx⟩, ?_, ?_⟩,
                  ⟨m, Set.mem_diff_singleton.mpr ⟨hmS, hmx⟩, ?_, ?_⟩⟩
          · simp [hyx, hyp, hyn, hq1]
          · by_cases hqn : q = n
            · subst hqn
              simp [hqx, hqp, hq2]
            · simp [hqx, hqp, hqn, hq2]
          · simp [hyx, hyp, hyn, hm1]
          · by_cases hmp : m = p
            · subst hmp
              simp [hmx, hm2]
            · simp [hmx, hmn, hmp, hm2]

/-! ## The claims -/

/-- C9: for every freshly constructed eagerly-initialised `double_list`,
before any other operation `empty ()` returns true and
`begin () == end ()` (both at the sentinel address). -/
theorem claim_c9 (h : Heap) (s : Nat) :
    list_empty (list_construct h s) s = true ∧
    list_begin (list_construct h s) s = some (list_end s) := by
  constructor <;>
    simp [list_empty, list_begin, list_construct, list_clear, initialise,
          linked, store_same, selfRef, list_end]

/-- C10: a link node whose pointers are both null reports
`uninitialized () == true` and, simultaneously, `linked () == true`,
because `linked ()` only tests for self-reference. -/
theorem claim_c10 (h : Heap) (n : Nat) (hn : h n = ⟨none, none⟩) :
    linked h n = true ∧ uninitialised h n = true := by
  simp [linked, uninitialised, hn]

theorem claim_c10_w :
    heapNull 0 = ⟨none, none⟩ ∧
    (linked heapNull 0 = true ∧ uninitialised heapNull 0 = true) :=
  ⟨rfl, claim_c10 heapNull 0 rfl⟩

/-- C3: for a linked node `n` (with non-null neighbours), immediately
after `n.unlink ()` the query `linked ()` returns false, and a second
`unlink ()` is a no-op — it returns exactly the same heap, so it changes
no node's pointers — with the same postcondition. -/
theorem claim_c3 (h : Heap) (n p m : Nat)
    (hlink : linked h n = true)
    (hp : (h n).previous = some p) (hm : (h n).next = some m) :
    ∃ h1, unlink h n = some h1 ∧ linked h1 n = false ∧
      unlink h1 n = some h1 := by
  have hpn : p ≠ n := by
    intro e
    rw [e] at hp
    simp [linked, hp] at hlink
  have hmn : m ≠ n := by
    intro e
    rw [e] at hm
    simp [linked, hm] at hlink
  by_cases hpm : p = m
  · subst hpm
    refine ⟨_, unlink_apply_pair h n p hp hm hpn, ?_, ?_⟩
    · simp [linked, selfRef]
    · exact unlink_unlinked _ n (by simp)
  · refine ⟨_, unlink_apply h n p m hp hm hpn hmn hpm, ?_, ?_⟩
    · simp [linked, selfRef]
    · exact unlink_unlinked _ n (by simp)

theorem claim_c3_w :
    linked heapPair 0 = true ∧ (heapPair 0).previous = some 1 ∧
    (heapPair 0).next = some 1 ∧
    (∃ h1, unlink heapPair 0 = some h1 ∧ linked h1 0 = false ∧
      unlink h1 0 = some h1) :=
  ⟨rfl, rfl, rfl, claim_c3 heapPair 0 1 1 rfl rfl rfl⟩

/-- C6: for a linked `self` and an unlinked `node`, `link_next (node)`
inserts `node` immediately after `self` by exactly the four assignments
`node.previous = self; node.next = self.next; self.next.previous = node;
self.next = node`, touching nothing else. -/
theorem claim_c6 (h : Heap) (self node nx : Nat)
    (hlink : linked h self = true)
    (hnx : (h self).next = some nx) (hok : (h nx).previous = some self)
    (hnode : h node = selfRef node) (h1 : node ≠ self) (h2 : node ≠ nx) :
    ∃ h', link_next h self node = some h' ∧
      h' node = ⟨some self, some nx⟩ ∧
      (h' self).next = some node ∧ (h' nx).previous = some node ∧
      (h' self).previous = (h self).previous ∧ (h' nx).next = (h nx).next ∧
      (∀ y, y ≠ node → y ≠ self → y ≠ nx → h' y = h y) := by
  have hsx : self ≠ nx := by
    intro e
    rw [← e] at hnx
    simp [linked, hnx] at hlink
  have key : ∀ x, insertBetween h self nx node x =
      if x = node then ⟨some self, some nx⟩
      else if x = self then { h self with next := some node }
      else if x = nx then { h nx with previous := some node }
      else h x := fun x => insertBetween_apply h self nx node x hsx h1 h2
  refine ⟨_, link_next_eq h self node nx hnx (by simp [hok]) h1 h2,
          ?_, ?_, ?_, ?_, ?_, ?_⟩
  · simp [key]
  · simp [key, Ne.symm h1]
  · simp [key, Ne.symm h2, Ne.symm hsx]
  · simp [key, Ne.symm h1]
  · simp [key, Ne.symm h2, Ne.symm hsx]
  · intro y hy1 hy2 hy3
    simp [key, hy1, hy2, hy3]

theorem claim_c6_w :
    linked heapPair 0 = true ∧ (heapPair 0).next = some 1 ∧
    (heapPair 1).previous = some 0 ∧ heapPair 2 = selfRef 2 ∧
    (∃ h', link_next heapPair 0 2 = some h' ∧
      h' 2 = ⟨some 0, some 1⟩ ∧
      (h' 0).next = some 2 ∧ (h' 1).previous = some 2 ∧
      (h' 0).previous = (heapPair 0).previous ∧
      (h' 1).next = (heapPair 1).next ∧
      (∀ y, y ≠ 2 → y ≠ 0 → y ≠ 1 → h' y = heapPair y)) :=
  ⟨rfl, rfl, rfl, rfl,
   claim_c6 heapPair 0 2 1 rfl rfl rfl rfl (by decide) (by decide)⟩

/-- C2: unlinking the middle node `b` of a list holding `[a, b, c]`
reconnects the neighbours (`a.next () == c`, `c.previous () == a`),
resets `b` to the self-referencing empty state, and iteration afterwards
yields `[a, c]`. -/
theorem claim_c2 (h : Heap) (s a b c : Nat)
    (hs : h s = ⟨some c, some a⟩) (ha : h a = ⟨some s, some b⟩)
    (hb : h b = ⟨some a, some c⟩) (hc : h c = ⟨some b, some s⟩)
    (hsa : s ≠ a) (hsb : s ≠ b) (hsc : s ≠ c)
    (hab : a ≠ b) (hac : a ≠ c) (hbc : b ≠ c) :
    ∃ h', unlink h b = some h' ∧
      h' b = selfRef b ∧ (h' a).next = some c ∧ (h' c).previous = some a ∧
      ∀ fuel, 3 ≤ fuel → toList h' s fuel = [a, c] := by
  have hp : (h b).previous = some a := by rw [hb]
  have hn : (h b).next = some c := by rw [hb]
  refine ⟨fun y =>
      if y = b then selfRef b
      else if y = a then { h a with next := some c }
      else if y = c then { h c with previous := some a }
      else h y,
    unlink_apply h b a c hp hn hab (Ne.symm hbc) hac, ?_, ?_, ?_, ?_⟩
  · simp
  · simp [hab]
  · simp [Ne.symm hbc, Ne.symm hac]
  · intro fuel hfuel
    obtain ⟨m, rfl⟩ : ∃ m, fuel = m + 1 + 1 + 1 := ⟨fuel - 3, by omega⟩
    have e0 : list_begin (fun y =>
        if y = b then selfRef b
        else if y = a then { h a with next := some c }
        else if y = c then { h c with previous := some a }
        else h y) s = some a := by
      simp [list_begin, hsb, hsa, hsc, hs]
    rw [toList, e0, visit_step _ _ _ _ (Ne.symm hsa)]
    have e1 : ((fun y =>
        if y = b then selfRef b
        else if y = a then { h a with next := some c }
        else if y = c then { h c with previous := some a }
        else h y) a).next = some c := by
      simp [hab]
    rw [e1, visit_step _ _ _ _ (Ne.symm hsc)]
    have e2 : ((fun y =>
        if y = b then selfRef b
        else if y = a then { h a with next := some c }
        else if y = c then { h c with previous := some a }
        else h y) c).next = some s := by
      simp [Ne.symm hbc, Ne.symm hac, hc]
    rw [e2, visit_stop]

theorem claim_c2_w :
    heap3 0 = ⟨some 3, some 1⟩ ∧ heap3 1 = ⟨some 0, some 2⟩ ∧
    heap3 2 = ⟨some 1, some 3⟩ ∧ heap3 3 = ⟨some 2, some 0⟩ ∧
    (∃ h', unlink heap3 2 = some h' ∧
      h' 2 = selfRef 2 ∧ (h' 1).next = some 3 ∧ (h' 3).previous = some 1 ∧
      ∀ fuel, 3 ≤ fuel → toList h' 0 fuel = [1, 3]) :=
  ⟨rfl, rfl, rfl, rfl,
   claim_c2 heap3 0 1 2 3 rfl rfl rfl rfl (by decide) (by decide)
     (by decide) (by decide) (by decide) (by decide)⟩

/-- C1: starting from an empty list `s` and distinct unlinked nodes
`a, b, c`, three `link_tail` calls leave `head () == a`, `tail () == c`,
and forward iteration from `begin ()` to `end ()` visits exactly
`[a, b, c]`. -/
theorem claim_c1 (h : Heap) (s a b c : Nat)
    (hs : h s = selfRef s) (ha : h a = selfRef a) (hb : h b = selfRef b)
    (hc : h c = selfRef c)
    (hsa : s ≠ a) (hsb : s ≠ b) (hsc : s ≠ c)
    (hab : a ≠ b) (hac : a ≠ c) (hbc : b ≠ c) :
    ∃ h1 h2 h3, link_tail h s a = some h1 ∧ link_tail h1 s b = some h2 ∧
      link_tail h2 s c = some h3 ∧
      list_head h3 s = some a ∧ list_tail h3 s = some c ∧
      ∀ fuel, 4 ≤ fuel → toList h3 s fuel = [a, b, c] := by
  have key1 : ∀ x, insertBetween h s s a x =
      if x = a then ⟨some s, some s⟩
      else if x = s then ⟨some a, some a⟩
      else h x := fun x => insertBetween_apply_self h s a x (Ne.symm hsa)
  have st1 : link_tail h s a = some (insertBetween h s s a) := by
    have t1 : list_tail h s = some s := by simp [list_tail, hs, selfRef]
    simp only [link_tail, t1]
    exact link_next_eq h s a s (by simp [hs, selfRef]) (by simp [hs, selfRef])
      (Ne.symm hsa) (Ne.symm hsa)
  have key2 : ∀ x, insertBetween (insertBetween h s s a) a s b x =
      if x = b then ⟨some a, some s⟩
      else if x = a then { insertBetween h s s a a with next := some b }
      else if x = s then { insertBetween h s s a s with previous := some b }
      else insertBetween h s s a x :=
    fun x => insertBetween_apply (insertBetween h s s a) a s b x
      (Ne.symm hsa) (Ne.symm hab) (Ne.symm hsb)
  have st2 : link_tail (insertBetween h s s a) s b
      = some (insertBetween (insertBetween h s s a) a s b) := by
    have t2 : list_tail (insertBetween h s s a) s = some a := by
      simp [list_tail, key1, hsa]
    simp only [link_tail, t2]
    exact link_next_eq (insertBetween h s s a) a b s
      (by simp [key1]) (by simp [key1, hsa]) (Ne.symm hab) (Ne.symm hsb)
  have key3 : ∀ x,
      insertBetween (insertBetween (insertBetween h s s a) a s b) b s c x =
      if x = c then ⟨some b, some s⟩
      else if x = b then
        { insertBetween (insertBetween h s s a) a s b b with next := some c }
      else if x = s then
        { insertBetween (insertBetween h s s a) a s b s with
            previous := some c }
      else insertBetween (insertBetween h s s a) a s b x :=
    fun x => insertBetween_apply (insertBetween (insertBetween h s s a) a s b)
      b s c x (Ne.symm hsb) (Ne.symm hbc) (Ne.symm hsc)
  have st3 : link_tail (insertBetween (insertBetween h s s a) a s b) s c
      = some (insertBetween (insertBetween (insertBetween h s s a) a s b)
              b s c) := by
    have t3 : list_tail (insertBetween (insertBetween h s s a) a s b) s
        = some b := by
      simp [list_tail, key2, hsb, hsa]
    simp only [link_tail, t3]
    exact link_next_eq (insertBetween (insertBetween h s s a) a s b) b c s
      (by simp [key2, hab, hsb]) (by simp [key2, hsb, hsa])
      (Ne.symm hbc) (Ne.symm hsc)
  refine ⟨_, _, _, st1, st2, st3, ?_, ?_, ?_⟩
  · simp [list_head, key3, key2, key1, hsc, hsb, hsa]
  · simp [list_tail, key3, hsc, hsb]
  · intro fuel hfuel
    obtain ⟨m, rfl⟩ : ∃ m, fuel = m + 1 + 1 + 1 + 1 := ⟨fuel - 4, by omega⟩
    have e0 : list_begin (insertBetween (insertBetween (insertBetween h s s a)
        a s b) b s c) s = some a := by
      simp [list_begin, key3, key2, key1, hsc, hsb, hsa]
    rw [toList, e0, visit_step _ _ _ _ (Ne.symm hsa)]
    have e1 : (insertBetween (insertBetween (insertBetween h s s a) a s b)
        b s c a).next = some b := by
      simp [key3, key2, hac, hab, Ne.symm hsa]
    rw [e1, visit_step _ _ _ _ (Ne.symm hsb)]
    have e2 : (insertBetween (insertBetween (insertBetween h s s a) a s b)
        b s c b).next = some c := by
      simp [key3, hbc]
    rw [e2, visit_step _ _ _ _ (Ne.symm hsc)]
    have e3 : (insertBetween (insertBetween (insertBetween h s s a) a s b)
        b s c c).next = some s := by
      simp [key3]
    rw [e3, visit_stop]

theorem claim_c1_w :
    heapFree 0 = selfRef 0 ∧ heapFree 1 = selfRef 1 ∧
    heapFree 2 = selfRef 2 ∧ heapFree 3 = selfRef 3 ∧
    (∃ h1 h2 h3, link_tail heapFree 0 1 = some h1 ∧
      link_tail h1 0 2 = some h2 ∧ link_tail h2 0 3 = some h3 ∧
      list_head h3 0 = some 1 ∧ list_tail h3 0 = some 3 ∧
      ∀ fuel, 4 ≤ fuel → toList h3 0 fuel = [1, 2, 3]) :=
  ⟨rfl, rfl, rfl, rfl,
   claim_c1 heapFree 0 1 2 3 rfl rfl rfl rfl (by decide) (by decide)
     (by decide) (by decide) (by decide) (by decide)⟩

/-- Appending at the tail of any well-formed list: `link_tail` succeeds,
preserves the invariant, places the node in the tail position linked
between the old tail and the sentinel, and changes no other node. -/
theorem link_tail_wf (h : Heap) (S : Set Nat) (s n : Nat)
    (hIv : Inv h S) (hs : s ∈ S) (hn : n ∉ S) :
    ∃ h' t, link_tail h s n = some h' ∧ (h s).previous = some t ∧
      Inv h' (insert n S) ∧ list_tail h' s = some n ∧
      h' n = ⟨some t, some s⟩ ∧ (h' t).next = some n ∧
      (∀ y, y ≠ n → y ≠ s → y ≠ t → h' y = h y) := by
  obtain ⟨⟨t, htS, ht1, ht2⟩, -⟩ := hIv s hs
  have hns : n ≠ s := fun e => hn (e ▸ hs)
  have hnt : n ≠ t := fun e => hn (e ▸ htS)
  have st : link_tail h s n = some (insertBetween h t s n) := by
    simp only [link_tail, list_tail, ht1]
    exact link_next_eq h t n s ht2 (by simp [ht1]) hnt hns
  by_cases hts : t = s
  · subst hts
    have key : ∀ x, insertBetween h t t n x =
        if x = n then ⟨some t, some t⟩
        else if x = t then ⟨some n, some n⟩
        else h x := fun x => insertBetween_apply_self h t n x hnt
    refine ⟨_, t, st, ht1, insertBetween_inv h S t t n hIv htS ht2 hn,
            ?_, ?_, ?_, ?_⟩
    · simp [list_tail, key, Ne.symm hnt]
    · simp [key]
    · simp [key, Ne.symm hnt]
    · intro y hy1 hy2 _
      simp [key, hy1, hy2]
  · have key : ∀ x, insertBetween h t s n x =
        if x = n then ⟨some t, some s⟩
        else if x = t then { h t with next := some n }
        else if x = s then { h s with previous := some n }
        else h x := fun x => insertBetween_apply h t s n x hts hnt hns
    refine ⟨_, t, st, ht1, insertBetween_inv h S t s n hIv htS ht2 hn,
            ?_, ?_, ?_, ?_⟩
    · simp [list_tail, key, Ne.symm hns, Ne.symm hts]
    · simp [key]
    · simp [key, Ne.symm hnt]
    · intro y hy1 hy2 hy3
      simp [key, hy1, hy2, hy3]

/-- C8: for every node `n` and every well-formed list — the same one or
a different one, empty or not — the sequence link `n`, unlink `n`, link
`n` again succeeds at each step; after the unlink `n` is back in the
unlinked state and the first list is intact, and each link produces a
well-formed, correctly ordered list with `n` in the tail (linked)
position: link and unlink are not one-shot. -/
theorem claim_c8 (h : Heap) (S : Set Nat) (s1 n : Nat)
    (hIv : Inv h S) (hs1 : s1 ∈ S) (hn : n ∉ S) (hrec : h n = selfRef n) :
    ∃ h1 h2, link_tail h s1 n = some h1 ∧ list_tail h1 s1 = some n ∧
      unlink h1 n = some h2 ∧ h2 n = selfRef n ∧ Inv h2 S ∧
      ∀ S' s2, Inv h2 S' → s2 ∈ S' → n ∉ S' →
        ∃ h3, link_tail h2 s2 n = some h3 ∧ Inv h3 (insert n S') ∧
          list_tail h3 s2 = some n := by
  obtain ⟨h1, t, st1, -, hInv1, htail1, -, -, -⟩ :=
    link_tail_wf h S s1 n hIv hs1 hn
  obtain ⟨h2, st2, hInv2, hself2⟩ :=
    unlink_inv h1 (insert n S) n hInv1 (Set.mem_insert n S)
  rw [Set.insert_diff_self_of_not_mem hn] at hInv2
  refine ⟨h1, h2, st1, htail1, st2, hself2, hInv2, ?_⟩
  intro S' s2 hIv' hs2 hn'
  obtain ⟨h3, t3, st3, -, hInv3, htail3, -, -, -⟩ :=
    link_tail_wf h2 S' s2 n hIv' hs2 hn'
  exact ⟨h3, st3, hInv3, htail3⟩

theorem claim_c8_w :
    Inv heap3 {0, 1, 2, 3} ∧ (0 : Nat) ∈ ({0, 1, 2, 3} : Set Nat) ∧
    (5 : Nat) ∉ ({0, 1, 2, 3} : Set Nat) ∧ heap3 5 = selfRef 5 ∧
    (∃ h1 h2, link_tail heap3 0 5 = some h1 ∧ list_tail h1 0 = some 5 ∧
      unlink h1 5 = some h2 ∧ h2 5 = selfRef 5 ∧ Inv h2 {0, 1, 2, 3} ∧
      ∀ S' s2, Inv h2 S' → s2 ∈ S' → 5 ∉ S' →
        ∃ h3, link_tail h2 s2 5 = some h3 ∧ Inv h3 (insert 5 S') ∧
          list_tail h3 s2 = some 5) := by
  have hinv : Inv heap3 {0, 1, 2, 3} := by
    intro x hx
    simp only [Set.mem_insert_iff, Set.mem_singleton_iff] at hx
    rcases hx with rfl | rfl | rfl | rfl
    · exact ⟨⟨3, by simp, rfl, rfl⟩, ⟨1, by simp, rfl, rfl⟩⟩
    · exact ⟨⟨0, by simp, rfl, rfl⟩, ⟨2, by simp, rfl, rfl⟩⟩
    · exact ⟨⟨1, by simp, rfl, rfl⟩, ⟨3, by simp, rfl, rfl⟩⟩
    · exact ⟨⟨2, by simp, rfl, rfl⟩, ⟨0, by simp, rfl, rfl⟩⟩
  exact ⟨hinv, by simp, by simp, rfl,
         claim_c8 heap3 {0, 1, 2, 3} 0 5 hinv (by simp) (by simp) rfl⟩

/-- C7: every list operation — `link_next`, `link_previous`, `unlink`
and `clear`/`initialize` — preserves the structural invariant: every
node of the list satisfies `previous.next == self` and
`next.previous == self`, and a node with both pointers equal to itself
encodes the empty/unlinked state (which is exactly how `unlink` leaves
the removed node and how `initialize` creates a node). -/
theorem claim_c7 (h : Heap) (S : Set Nat) (self node x a : Nat)
    (hIv : Inv h S) :
    (self ∈ S → node ∉ S → h node = selfRef node →
      ∃ h', link_next h self node = some h' ∧ Inv h' (insert node S)) ∧
    (self ∈ S → node ∉ S → h node = selfRef node →
      ∃ h', link_previous h self node = some h' ∧ Inv h' (insert node S)) ∧
    (x ∈ S → ∃ h', unlink h x = some h' ∧ Inv h' (S \ {x}) ∧
      h' x = selfRef x) ∧
    (a ∉ S → Inv (initialise h a) (insert a S)) := by
  refine ⟨?_, ?_, fun hx => unlink_inv h S x hIv hx,
          fun ha => initialise_inv h S a hIv ha⟩
  · intro hself hnode hrec
    obtain ⟨-, ⟨nx, hnxS, hnx1, hnx2⟩⟩ := hIv self hself
    have h1 : node ≠ self := fun e => hnode (e ▸ hself)
    have h2 : node ≠ nx := fun e => hnode (e ▸ hnxS)
    exact ⟨_, link_next_eq h self node nx hnx1 (by simp [hnx2]) h1 h2,
           insertBetween_inv h S self nx node hIv hself hnx1 hnode⟩
  · intro hself hnode hrec
    obtain ⟨⟨pv, hpvS, hpv1, hpv2⟩, ⟨nx, hnxS, hnx1, hnx2⟩⟩ := hIv self hself
    have h1 : node ≠ self := fun e => hnode (e ▸ hself)
    have h2 : node ≠ pv := fun e => hnode (e ▸ hpvS)
    exact ⟨_, link_previous_eq h self node pv nx hpv1 hnx1 (by simp [hnx2])
             h1 h2,
           insertBetween_inv h S pv self node hIv hpvS hpv2 hnode⟩

theorem claim_c7_w :
    Inv heapFree {0} ∧
    ((0 ∈ ({0} : Set Nat) → 1 ∉ ({0} : Set Nat) → heapFree 1 = selfRef 1 →
      ∃ h', link_next heapFree 0 1 = some h' ∧ Inv h' (insert 1 {0})) ∧
     (0 ∈ ({0} : Set Nat) → 1 ∉ ({0} : Set Nat) → heapFree 1 = selfRef 1 →
      ∃ h', link_previous heapFree 0 1 = some h' ∧ Inv h' (insert 1 {0})) ∧
     (0 ∈ ({0} : Set Nat) → ∃ h', unlink heapFree 0 = some h' ∧
       Inv h' (({0} : Set Nat) \ {0}) ∧ h' 0 = selfRef 0) ∧
     (1 ∉ ({0} : Set Nat) → Inv (initialise heapFree 1) (insert 1 {0}))) := by
  have hinv : Inv heapFree {0} := by
    intro x hx
    obtain rfl : x = 0 := hx
    exact ⟨⟨0, rfl, rfl, rfl⟩, ⟨0, rfl, rfl, rfl⟩⟩
  exact ⟨hinv, claim_c7 heapFree {0} 0 1 0 1 hinv⟩

/-- Pointwise effect of the lists.h `clear`. -/
theorem old_clear_apply (h : Heap) (s y : Nat) :
    old_clear h s y = if y = s then selfRef s else h y := by
  simp only [old_clear, store, selfRef]
  split_ifs <;> simp_all

/-- Normal form of the lists.h `insert_after` on a null-initialised
node. -/
theorem insert_after_eq (h : Heap) (node after nx : Nat)
    (hnode : h node = ⟨none, none⟩) (hnx : (h after).next = some nx)
    (hna : node ≠ after) (hnn : node ≠ nx) :
    insert_after h node after = some (insertBetween h after nx node) := by
  have han : after ≠ node := Ne.symm hna
  simp only [insert_after, store_other _ _ _ han, hnx]
  split_ifs with hc
  · congr 1
    funext x
    simp only [insertBetween, store]
    split_ifs <;> simp_all
  · exact absurd ⟨by simp [hnode], by simp [hnode], by simp⟩ hc

/-- C4, counterexample: with the inlines.h `double_list`, the first
`link_tail`, `link_head` or `begin` on a still-uninitialised statically
allocated list does not bootstrap the list: it fails the
`assert (!links_.uninitialized ())` instead of clearing first. -/
theorem claim_c4_counterexample :
    link_tail_static heapNull 0 1 = none ∧
    link_head_static heapNull 0 1 = none ∧
    begin_static heapNull 0 = none :=
  ⟨rfl, rfl, rfl⟩

/-- C4, amended: the lazy bootstrap lives in the lists.h variant — on an
uninitialised statically allocated list, `double_list::link` clears the
list first and then links the node, and `double_list::begin` clears it
and returns the empty iterator, after which `uninitialized ()` is false
(and, in the `begin` case with no node linked, `empty ()` is true); the
inlines.h variant's `link_tail`/`link_head`/`begin` instead assert
`!uninitialized ()`, refusing the uninitialised state. -/
theorem claim_c4_amended (h : Heap) (s a : Nat)
    (hs : h s = ⟨none, none⟩) (ha : h a = ⟨none, none⟩) (hsa : s ≠ a) :
    (∃ h', old_link h s a = some h' ∧ old_uninitialised h' s = false ∧
      (h' s).next = some a ∧
      ∀ fuel, 2 ≤ fuel → visit h' s ((h' s).next) fuel = [a]) ∧
    ((old_begin h s).2 = some s ∧
      old_uninitialised (old_begin h s).1 s = false ∧
      old_empty_static (old_begin h s).1 s = true) ∧
    link_tail_static h s a = none ∧ link_head_static h s a = none ∧
    begin_static h s = none := by
  have hu : old_uninitialised h s = true := by simp [old_uninitialised, hs]
  have hclear : ∀ y, old_clear h s y = if y = s then selfRef s else h y :=
    old_clear_apply h s
  have has : a ≠ s := Ne.symm hsa
  have key : ∀ x, insertBetween (old_clear h s) s s a x =
      if x = a then ⟨some s, some s⟩
      else if x = s then ⟨some a, some a⟩
      else old_clear h s x :=
    fun x => insertBetween_apply_self (old_clear h s) s a x has
  refine ⟨⟨insertBetween (old_clear h s) s s a, ?_, ?_, ?_, ?_⟩,
          ⟨?_, ?_, ?_⟩, ?_, ?_, ?_⟩
  · have t0 : ((old_clear h s) s).previous = some s := by
      simp [hclear, selfRef]
    simp only [old_link, hu, if_true, t0]
    exact insert_after_eq (old_clear h s) a s s
      (by simp [hclear, has, ha]) (by simp [hclear, selfRef]) has has
  · simp [old_uninitialised, key, hsa]
  · simp [key, hsa]
  · intro fuel hfuel
    obtain ⟨m, rfl⟩ : ∃ m, fuel = m + 1 + 1 := ⟨fuel - 2, by omega⟩
    have e0 : (insertBetween (old_clear h s) s s a s).next = some a := by
      simp [key, hsa]
    rw [e0, visit_step _ _ _ _ has]
    have e1 : (insertBetween (old_clear h s) s s a a).next = some s := by
      simp [key]
    rw [e1, visit_stop]
  · simp [old_begin, hu, hclear, selfRef]
  · simp [old_begin, old_uninitialised, hs, hclear, selfRef]
  · simp [old_begin, old_empty_static, old_uninitialised, hs, hclear,
          selfRef]
  · simp [link_tail_static, uninitialised, hs]
  · simp [link_head_static, uninitialised, hs]
  · simp [begin_static, uninitialised, hs]

theorem claim_c4_amended_w :
    heapNull 0 = ⟨none, none⟩ ∧ heapNull 1 = ⟨none, none⟩ ∧
    ((∃ h', old_link heapNull 0 1 = some h' ∧
        old_uninitialised h' 0 = false ∧ (h' 0).next = some 1 ∧
        ∀ fuel, 2 ≤ fuel → visit h' 0 ((h' 0).next) fuel = [1]) ∧
     ((old_begin heapNull 0).2 = some 0 ∧
       old_uninitialised (old_begin heapNull 0).1 0 = false ∧
       old_empty_static (old_begin heapNull 0).1 0 = true) ∧
     link_tail_static heapNull 0 1 = none ∧
     link_head_static heapNull 0 1 = none ∧
     begin_static heapNull 0 = none) :=
  ⟨rfl, rfl, claim_c4_amended heapNull 0 1 rfl rfl (by decide)⟩

/-- Whenever both pointers of `x` are non-null, `unlink` succeeds and
its result is `initialize`d at `x`, hence self-referencing there. -/
theorem unlink_shape (h : Heap) (x p n : Nat)
    (hp : (h x).previous = some p) (hn : (h x).next = some n) :
    ∃ h2, unlink h x = some (initialise h2 x) := by
  have hs1 : (store h p ⟨(h p).previous, (h x).next⟩ x).next = some n := by
    by_cases hpx : p = x
    · subst hpx
      rw [store_same]
      exact hn
    · rw [store_other _ _ _ (Ne.symm hpx)]
      exact hn
  exact ⟨store (store h p ⟨(h p).previous, (h x).next⟩) n
      ⟨(store h p ⟨(h p).previous, (h x).next⟩ x).previous,
       (store h p ⟨(h p).previous, (h x).next⟩ n).next⟩,
    by simp only [unlink, hp, hs1]⟩

/-- C5, counterexample: `intrusive_list::unlink_head` and `unlink_tail`
of inlines.h have no non-empty assertion — called on an empty list they
succeed instead of failing a non-empty check: the sentinel unlink is a
no-op (the heap is returned unchanged) and a meaningless host pointer is
returned. -/
theorem claim_c5_counterexample :
    list_empty heapFree 0 = true ∧
    unlink_head_i 1 heapFree 0 = some (heapFree, 0) ∧
    unlink_tail_i 1 heapFree 0 = some (heapFree, 0) := by
  have e1 : (heapFree 0).next = some 0 := rfl
  have e2 : (heapFree 0).previous = some 0 := rfl
  refine ⟨rfl, ?_, ?_⟩
  · simp [unlink_head_i, e1, unlink_unlinked heapFree 0 rfl, get_pointer]
  · simp [unlink_tail_i, e2, unlink_unlinked heapFree 0 rfl, get_pointer]

/-- C5, amended: the non-empty precondition is checked by an assertion
only in the lists.h variant of `unlink_head`/`unlink_tail` (which return
no result on an empty list); the inlines.h variant has no assertion and
treats an empty-list unlink as a no-op on the sentinel: it returns the
heap unchanged together with a meaningless host pointer. On a non-empty
list, both variants unlink the first (respectively last) element's link
node — leaving it self-referencing — and return the pointer to its host
object, obtained by subtracting the member offset. -/
theorem claim_c5_amended (off : Nat) (h : Heap) (s a z host hostz : Nat)
    (hsn : (h s).next = some a) (has : a ≠ s)
    (hap : (h a).previous = some s) (han : (h a).next.isSome = true)
    (hsp : (h s).previous = some z) (hzs : z ≠ s)
    (hzn : (h z).next = some s) (hzp : (h z).previous.isSome = true)
    (hahost : a = host + off) (hzhost : z = hostz + off) :
    (∀ h0 s0, old_empty h0 s0 = true →
      old_unlink_head off h0 s0 = none ∧ old_unlink_tail off h0 s0 = none) ∧
    (∀ h0 s0, h0 s0 = selfRef s0 →
      unlink_head_i off h0 s0 = some (h0, get_pointer off s0) ∧
      unlink_tail_i off h0 s0 = some (h0, get_pointer off s0)) ∧
    (∃ h', unlink_head_i off h s = some (h', host) ∧ h' a = selfRef a ∧
       old_unlink_head off h s = some (h', host)) ∧
    (∃ h', unlink_tail_i off h s = some (h', hostz) ∧ h' z = selfRef z ∧
       old_unlink_tail off h s = some (h', hostz)) := by
  have hga : get_pointer off a = host := by simp [get_pointer, hahost]
  have hgz : get_pointer off z = hostz := by simp [get_pointer, hzhost]
  obtain ⟨n2, hn2⟩ := Option.isSome_iff_exists.mp han
  obtain ⟨p2, hp2⟩ := Option.isSome_iff_exists.mp hzp
  have hea : old_empty h s = false := by simp [old_empty, hsn, has]
  refine ⟨?_, ?_, ?_, ?_⟩
  · intro h0 s0 he0
    constructor <;> simp [old_unlink_head, old_unlink_tail, he0]
  · intro h0 s0 he
    have e1 : (h0 s0).next = some s0 := by rw [he]; rfl
    have e2 : (h0 s0).previous = some s0 := by rw [he]; rfl
    constructor
    · simp [unlink_head_i, e1, unlink_unlinked h0 s0 he]
    · simp [unlink_tail_i, e2, unlink_unlinked h0 s0 he]
  · obtain ⟨h2a, he1⟩ := unlink_shape h a s n2 hap hn2
    refine ⟨initialise h2a a, ?_, store_same _ _ _, ?_⟩
    · simp [unlink_head_i, hsn, he1, hga]
    · simp [old_unlink_head, hea, hsn, he1, hga]
  · obtain ⟨h2z, he1⟩ := unlink_shape h z p2 s hp2 hzn
    refine ⟨initialise h2z z, ?_, store_same _ _ _, ?_⟩
    · simp [unlink_tail_i, hsp, he1, hgz]
    · simp [old_unlink_tail, hea, hsp, he1, hgz]

theorem claim_c5_amended_w :
    (heap3 0).next = some 1 ∧ (heap3 1).previous = some 0 ∧
    (heap3 0).previous = some 3 ∧ (heap3 3).next = some 0 ∧
    ((∀ h0 s0, old_empty h0 s0 = true →
        old_unlink_head 1 h0 s0 = none ∧ old_unlink_tail 1 h0 s0 = none) ∧
     (∀ h0 s0, h0 s0 = selfRef s0 →
       unlink_head_i 1 h0 s0 = some (h0, get_pointer 1 s0) ∧
       unlink_tail_i 1 h0 s0 = some (h0, get_pointer 1 s0)) ∧
     (∃ h', unlink_head_i 1 heap3 0 = some (h', 0) ∧ h' 1 = selfRef 1 ∧
        old_unlink_head 1 heap3 0 = some (h', 0)) ∧
     (∃ h', unlink_tail_i 1 heap3 0 = some (h', 2) ∧ h' 3 = selfRef 3 ∧
        old_unlink_tail 1 heap3 0 = some (h', 2))) :=
  ⟨rfl, rfl, rfl, rfl,
   claim_c5_amended 1 heap3 0 1 3 0 2 rfl (by decide) rfl rfl rfl
     (by decide) rfl rfl (by decide) (by decide)⟩

end UtilsLists
